import Mathlib

/-!
Shallow embedding of `src/gdp-analysis/gdp_analysis.py` (a pandas/numpy GDP
growth-rate analysis pipeline) and proofs about it.

Modelling conventions:
* Python/numpy floating point is modelled by exact rationals (`ℚ`).
* `pd.DataFrame` holding the year × country growth matrix is `Frame`:
  a year index plus a list of named columns; a missing cell (`NaN`) is `none`.
* The process-global numpy RNG (`np.random`) is modelled by `RandState`:
  a stream of the standard-normal values that successive
  `np.random.normal` calls return, plus the position of the next draw.
  `np.random.seed 42` replaces the state by the canonical stream for seed 42
  (position 0); that stream is an unknown but fixed function, so every
  theorem quantifies over it.
* `round(x, 2)` / `DataFrame.round` use round-half-to-even, modelled exactly
  on `ℚ` by `roundHalfEven`.
-/

/-- Round-half-to-even of a rational to an integer, the rounding used by
Python's `round` and numpy's `rint` (modelled on exact rationals). -/
def roundHalfEven (q : ℚ) : ℤ :=
  let n := ⌊q⌋
  let r := q - n
  if r < 1/2 then n
  else if 1/2 < r then n + 1
  else if n % 2 = 0 then n else n + 1

/-- Python's `round(x, 2)`: round to two decimal places, half to even. -/
def round2 (q : ℚ) : ℚ := (roundHalfEven (q * 100) : ℚ) / 100

/-- The year × country growth matrix (`pd.DataFrame`): a year index plus
columns named by country; a cell holds `none` where the DataFrame holds NaN. -/
structure Frame where
  years : List ℤ
  cols : List (String × List (Option ℚ))
deriving DecidableEq

/-- Column (country) names of a frame, in column order. -/
def Frame.colNames (f : Frame) : List String := f.cols.map (fun c => c.1)

/-- Values of the named column, empty if the column is absent. -/
def Frame.column (f : Frame) (c : String) : List (Option ℚ) :=
  match f.cols.find? (fun col => col.1 == c) with
  | some col => col.2
  | none => []

/-- Cell lookup `df.loc[y, c]`: `none` when the column or year is absent or
the stored value is NaN. -/
def Frame.cell (f : Frame) (c : String) (y : ℤ) : Option ℚ :=
  match f.years.findIdx? (fun z => z == y) with
  | some i => ((f.column c)[i]?).join
  | none => none

/-- The module constant `MAJOR_ECONOMIES` (lines 23-34): ISO code → display
name, in insertion order. -/
def MAJOR_ECONOMIES : List (String × String) :=
  [("USA", "United States"), ("CHN", "China"), ("JPN", "Japan"),
   ("DEU", "Germany"), ("IND", "India"), ("GBR", "United Kingdom"),
   ("FRA", "France"), ("BRA", "Brazil"), ("ITA", "Italy"), ("CAN", "Canada")]

/-- Per-country parameters of the synthetic generator (`base_patterns`
entries, lines 90-101). -/
structure Params where
  mean : ℚ
  std : ℚ
  crisis_impact : ℚ
deriving DecidableEq

/-- The `base_patterns` dict of `create_sample_data` (lines 90-101), in
insertion order. -/
def base_patterns : List (String × Params) :=
  [("United States", ⟨23/10, 2, -7/2⟩),
   ("China", ⟨17/2, 5/2, -3/2⟩),
   ("Japan", ⟨1, 2, -4⟩),
   ("Germany", ⟨3/2, 5/2, -9/2⟩),
   ("India", ⟨13/2, 5/2, -2⟩),
   ("United Kingdom", ⟨2, 2, -4⟩),
   ("France", ⟨3/2, 2, -3⟩),
   ("Brazil", ⟨5/2, 3, -4⟩),
   ("Italy", ⟨1/2, 2, -5⟩),
   ("Canada", ⟨11/5, 2, -3⟩)]

/-- State of the process-global numpy RNG: the stream of standard-normal
values that successive `np.random.normal` calls return (a fixed function of
the last seed), and the index of the next draw. -/
structure RandState where
  stream : Nat → ℚ
  pos : Nat

/-- The call `np.random.seed(42)` (line 86): the previous RNG state is
discarded and replaced by the canonical seed-42 stream at position 0.
`mt42` stands for that (unknown but fixed) stream. -/
def npRandomSeed (mt42 : Nat → ℚ) (_s : RandState) : RandState := ⟨mt42, 0⟩

/-- One call `np.random.normal(0, scale)`: returns `scale` times the next
standard-normal value of the stream and advances the RNG. -/
def normal0 (scale : ℚ) (s : RandState) : ℚ × RandState :=
  (scale * s.stream s.pos, ⟨s.stream, s.pos + 1⟩)

/-- The body of the inner year loop of `create_sample_data` (lines 107-122):
draw the base rate, apply the scripted crisis overrides for 2008, 2009,
2020, 2021 and 2022, and round to two decimals. -/
def sampleRate (p : Params) (year : ℤ) (s : RandState) : ℚ × RandState :=
  let d := normal0 (p.std * (1/2)) s
  let rate := p.mean + d.1
  if year = 2008 then (round2 (rate + p.crisis_impact * (3/10)), d.2)
  else if year = 2009 then (round2 p.crisis_impact, d.2)
  else if year = 2020 then (round2 (p.crisis_impact * (3/2)), d.2)
  else if year = 2021 then
    let d2 := normal0 1 d.2
    (round2 (p.mean * 2 + d2.1), d2.2)
  else if year = 2022 then
    let d2 := normal0 (1/2) d.2
    (round2 (p.mean * (6/5) + d2.1), d2.2)
  else (round2 rate, d.2)

/-- The `growth_rates` list built for one country (lines 105-122), threading
the RNG state across the years. -/
def growthRates (p : Params) : List ℤ → RandState → List ℚ × RandState
  | [], s => ([], s)
  | y :: ys, s =>
    let v := sampleRate p y s
    let rest := growthRates p ys v.2
    (v.1 :: rest.1, rest.2)

/-- The `data` dict built by the outer country loop (lines 103-124),
threading the RNG state across the countries. -/
def buildData : List (String × Params) → List ℤ → RandState →
    List (String × List ℚ) × RandState
  | [], _, s => ([], s)
  | (c, p) :: rest, years, s =>
    let col := growthRates p years s
    let others := buildData rest years col.2
    ((c, col.1) :: others.1, others.2)

/-- The inclusive year range `range(startY, endY + 1)` as a list. -/
def yearRange (startY endY : ℤ) : List ℤ :=
  (List.range (endY + 1 - startY).toNat).map (fun i : ℕ => startY + (i : ℤ))

/-- The function `create_sample_data` (lines 78-128), parameterised by the
seed-42 standard-normal stream `mt42` and the incoming RNG state `s0` (which
the function's own `np.random.seed(42)` discards), and by the year range
that the source reads from the module constants `START_YEAR`/`END_YEAR`. -/
def create_sample_data (mt42 : Nat → ℚ) (s0 : RandState) (startY endY : ℤ) : Frame :=
  let s := npRandomSeed mt42 s0
  let years := yearRange startY endY
  ⟨years, (buildData base_patterns years s).1.map (fun cp => (cp.1, cp.2.map some))⟩

/-- Raw result of the World Bank query `wb.data.DataFrame(...)` (lines 55-59):
one row per economy code, columns labelled like `YR2000`; `vals` is aligned
with `codes`, each inner list aligned with `yearLabels`; a missing
observation is `none`. After the source's `data.T` the economies become the
columns, which is how `transformRaw` reads this structure. -/
structure RawWB where
  codes : List String
  yearLabels : List String
  vals : List (List (Option ℚ))
deriving DecidableEq

/-- Character-level model of `str.replace('YR', '')`: removes every
occurrence of the two-character pattern, scanning left to right. -/
def removeYR : List Char → List Char
  | 'Y' :: 'R' :: rest => removeYR rest
  | c :: rest => c :: removeYR rest
  | [] => []

/-- One decimal digit of `int(...)` parsing. -/
def digit? (c : Char) : Option ℕ :=
  if '0' ≤ c ∧ c ≤ '9' then some (c.toNat - '0'.toNat) else none

/-- Digits accumulated left to right; `none` on any non-digit. -/
def parseNatAcc : List Char → ℕ → Option ℕ
  | [], acc => some acc
  | c :: rest, acc =>
    match digit? c with
    | some d => parseNatAcc rest (acc * 10 + d)
    | none => none

/-- Character-level model of Python's `int(...)`: an optional minus sign
followed by at least one digit; anything else fails. -/
def strToInt? : List Char → Option ℤ
  | '-' :: rest =>
    if rest.isEmpty then none else (parseNatAcc rest 0).map (fun n => -(n : ℤ))
  | cs =>
    if cs.isEmpty then none else (parseNatAcc cs 0).map (fun n => (n : ℤ))

/-- The index conversion `str.replace('YR', '').astype(int)` (line 63) for
one label; `astype(int)` raises (modelled as `Except.error`) on a
non-numeric remainder. -/
def parseYearLabel (s : String) : Except String ℤ :=
  match strToInt? (removeYR s.data) with
  | some n => Except.ok n
  | none => Except.error s

/-- The column renaming `MAJOR_ECONOMIES.get(col, col)` (line 67): an
unknown code is kept unchanged. -/
def renameEconomy (c : String) : String :=
  match MAJOR_ECONOMIES.find? (fun e => e.1 == c) with
  | some e => e.2
  | none => c

/-- The body of the `try` block after the query (lines 61-67): transpose,
convert the year labels to integers, rename the columns to display names.
Any exception inside it is an `Except.error`, caught by the handler. -/
def transformRaw (raw : RawWB) : Except String Frame := do
  let years ← raw.yearLabels.mapM parseYearLabel
  Except.ok ⟨years, (raw.codes.zip raw.vals).map (fun cv => (renameEconomy cv.1, cv.2))⟩

/-- The function `fetch_gdp_data` (lines 44-75), parameterised by the single
API query's outcome `api` (the source queries exactly once; there is no
retry). Any exception, from the query itself or from the transformation
inside the `try` block, lands in the `Except.error` branch, which logs and
returns `create_sample_data()` on the same (global) year range instead. -/
def fetch_gdp_data (mt42 : Nat → ℚ) (s0 : RandState) (startY endY : ℤ)
    (api : Except String RawWB) : Frame :=
  match api.bind transformRaw with
  | Except.ok df => df
  | Except.error _ => create_sample_data mt42 s0 startY endY

/-- Structurally recursive integer square root (binary method), equal to
`Nat.sqrt` (proved below) but cheap to evaluate by kernel reduction. -/
def isqrtFuel : ℕ → ℕ → ℕ
  | 0, _ => 0
  | fuel + 1, n =>
    if n < 2 then n
    else
      let r := 2 * isqrtFuel fuel (n / 4)
      if (r + 1) * (r + 1) ≤ n then r + 1 else r

/-- Integer square root, `n` itself as ample fuel. -/
def isqrt (n : ℕ) : ℕ := isqrtFuel n n

/-- Half-even rounding of the square root of a nonnegative rational to the
nearest integer: the unique `n` with `(n - 1/2)^2 ≤ x < (n + 1/2)^2`, ties
going to the even neighbour. Used to represent rounded values of
square-root expressions (standard deviations, Pearson correlations)
exactly: `round(√x · 10^k)/10^k` is rational even though `√x` is not. -/
def sqrtRoundHE (x : ℚ) : ℕ :=
  let m := isqrt (⌊x⌋.toNat)
  if x < ((m : ℚ) + 1/2) ^ 2 then m
  else if ((m : ℚ) + 1/2) ^ 2 < x then m + 1
  else if m % 2 = 0 then m else m + 1

/-- Pairs (year, value) of the cells of a column that are present (pandas
skips NaN cells in all the per-column aggregations, `skipna=True`). -/
def presentWithYears (years : List ℤ) (col : List (Option ℚ)) : List (ℤ × ℚ) :=
  (years.zip col).filterMap (fun p => p.2.map (fun v => (p.1, v)))

/-- Mean of the present values of a column, `NaN` (`none`) when the column
has no present value (`df.mean()`, line 142, before rounding). -/
def meanOpt (vals : List ℚ) : Option ℚ :=
  if vals.length = 0 then none else some (vals.sum / (vals.length : ℚ))

/-- Median of the present values (`df.median()`, line 143): middle of the
ascending values, or the average of the two middles for an even count. -/
def medianOpt (vals : List ℚ) : Option ℚ :=
  let sorted := vals.insertionSort (fun a b => a ≤ b)
  let n := vals.length
  if n = 0 then none
  else if n % 2 = 1 then sorted[n / 2]?
  else do
    let a ← sorted[n / 2 - 1]?
    let b ← sorted[n / 2]?
    some ((a + b) / 2)

/-- Sample standard deviation (`df.std()`, line 144, pandas `ddof=1`)
rounded to two decimals: `round2 (√v) = sqrtRoundHE (10^4 v) / 100` for the
variance `v`; `NaN` (`none`) when fewer than two values are present. -/
def stdRound2Opt (vals : List ℚ) : Option ℚ :=
  match meanOpt vals with
  | none => none
  | some m =>
    if vals.length ≤ 1 then none
    else some ((sqrtRoundHE (10 ^ 4 * ((vals.map (fun v => (v - m) ^ 2)).sum
      / ((vals.length : ℚ) - 1))) : ℚ) / 100)

/-- The predicate of `(df > 0)` on one cell: NaN compares as `False`. -/
def isPosCell : Option ℚ → Bool
  | some x => decide (0 < x)
  | none => false

/-- The predicate of `(df < 0)` on one cell: NaN compares as `False`. -/
def isNegCell : Option ℚ → Bool
  | some x => decide (x < 0)
  | none => false

/-- One row of the summary-statistics table built by `calculate_statistics`
(lines 141-151): the nine per-country attributes, keyed by country. -/
structure StatRow where
  country : String
  avgGrowth : Option ℚ
  medGrowth : Option ℚ
  stdDev : Option ℚ
  maxGrowth : Option ℚ
  minGrowth : Option ℚ
  bestYear : Option ℤ
  worstYear : Option ℤ
  positiveYears : ℕ
  negativeYears : ℕ
deriving DecidableEq

/-- First year attaining the maximum value (`df.idxmax()`, line 147; pandas
returns the first occurrence), `none` for an empty column. -/
def idxmaxYear (l : List (ℤ × ℚ)) : Option ℤ :=
  ((l.map (fun p => p.2)).max?).bind
    (fun m => (l.find? (fun p => p.2 == m)).map (fun p => p.1))

/-- First year attaining the minimum value (`df.idxmin()`, line 148). -/
def idxminYear (l : List (ℤ × ℚ)) : Option ℤ :=
  ((l.map (fun p => p.2)).min?).bind
    (fun m => (l.find? (fun p => p.2 == m)).map (fun p => p.1))

/-- The summary-statistics row of one country (the nine column expressions
of lines 142-150, each rounded as in the source). -/
def mkStatRow (f : Frame) (c : String) : StatRow :=
  let col := f.column c
  let present := presentWithYears f.years col
  let vals := present.map (fun p => p.2)
  { country := c
    avgGrowth := (meanOpt vals).map round2
    medGrowth := (medianOpt vals).map round2
    stdDev := stdRound2Opt vals
    maxGrowth := (vals.max?).map round2
    minGrowth := (vals.min?).map round2
    bestYear := idxmaxYear present
    worstYear := idxminYear present
    positiveYears := col.countP isPosCell
    negativeYears := col.countP isNegCell }

/-- Lexicographic order on (original position, sort key) pairs, by key first
and original position second. Sorting by it is extensionally the unique
stable ascending sort by the key, which is what the pandas/numpy sort
primitives used by this program perform (see `calculate_statistics`). -/
def keyLex (a b : ℕ × ℚ) : Prop := a.2 < b.2 ∨ (a.2 = b.2 ∧ a.1 ≤ b.1)

/-- The `keyLex` order lifted to decorated payloads. -/
def onKey {α : Type _} (a b : (ℕ × ℚ) × α) : Prop := keyLex a.1 b.1

instance {α : Type _} : DecidableRel (fun (a b : (ℕ × ℚ) × α) => onKey a b) :=
  fun a b => by unfold onKey keyLex; infer_instance

instance {α : Type _} : IsTotal ((ℕ × ℚ) × α) onKey where
  total a b := by
    unfold onKey keyLex
    rcases lt_trichotomy a.1.2 b.1.2 with h | h | h
    · exact Or.inl (Or.inl h)
    · rcases Nat.le_total a.1.1 b.1.1 with h2 | h2
      · exact Or.inl (Or.inr ⟨h, h2⟩)
      · exact Or.inr (Or.inr ⟨h.symm, h2⟩)
    · exact Or.inr (Or.inl h)

instance {α : Type _} : IsTrans ((ℕ × ℚ) × α) onKey where
  trans a b c hab hbc := by
    unfold onKey keyLex at *
    rcases hab with h1 | ⟨h1, h1i⟩ <;> rcases hbc with h2 | ⟨h2, h2i⟩
    · exact Or.inl (h1.trans h2)
    · exact Or.inl (h2 ▸ h1)
    · exact Or.inl (h1 ▸ h2)
    · exact Or.inr ⟨h1.trans h2, h1i.trans h2i⟩

/-- Decorate each list element with its original position and its sort key,
so that a sort by `onKey` is the stable sort by the key. -/
def decorate {α : Type _} (key : α → ℚ) (l : List α) : List ((ℕ × ℚ) × α) :=
  l.enum.map (fun ia => ((ia.1, key ia.2), ia.2))

/-- Stable ascending sort by a rational key: the extensional behaviour of
the sort primitives the source uses (numpy `argsort` is insertion sort for
the small arrays of this program, Python `list.sort` is documented stable),
including pandas `nargsort`'s handling of descending order, which reverses
the non-NaN block before and after a stable ascending argsort and therefore
also keeps equal keys in original order. -/
def stableSortByKey {α : Type _} (key : α → ℚ) (l : List α) : List α :=
  ((decorate key l).insertionSort onKey).map (fun t => t.2)

/-- The function `calculate_statistics` (lines 131-153): one row per
country, sorted by `stats.sort_values('Average Growth (%)',
ascending=False)`. Per pandas `nargsort` this is the stable descending sort
by rounded mean (modelled as the stable ascending sort by its negation) on
the rows whose mean is defined, with all-NaN-mean rows appended in original
order (`na_position='last'`). -/
def calculate_statistics (f : Frame) : List StatRow :=
  let rows := f.colNames.map (mkStatRow f)
  let defined := rows.filter (fun r => r.avgGrowth.isSome)
  let nans := rows.filter (fun r => r.avgGrowth.isNone)
  stableSortByKey (fun r => -(r.avgGrowth.getD 0)) defined ++ nans

/-- Rows of a pair of columns where both cells are present: pandas computes
each correlation pairwise-complete over exactly these rows. -/
def bothPresent (xs ys : List (Option ℚ)) : List (ℚ × ℚ) :=
  (xs.zip ys).filterMap (fun p =>
    match p with
    | (some x, some y) => some (x, y)
    | _ => none)

/-- The sums pandas `nancorr` accumulates for one pair of columns:
`(Σ (x-x̄)(y-ȳ), Σ (x-x̄)², Σ (y-ȳ)²)` over the rows where both are
present, with the pairwise means `x̄`, `ȳ` over those rows (the common
normalisation factor cancels in the correlation, so it is omitted). -/
def covSums (l : List (ℚ × ℚ)) : ℚ × ℚ × ℚ :=
  let n : ℚ := (l.length : ℚ)
  let mx := (l.map (fun p => p.1)).sum / n
  let my := (l.map (fun p => p.2)).sum / n
  ((l.map (fun p => (p.1 - mx) * (p.2 - my))).sum,
   (l.map (fun p => (p.1 - mx) ^ 2)).sum,
   (l.map (fun p => (p.2 - my) ^ 2)).sum)

/-- One entry of `df.corr().round(3)` (line 166). pandas `nancorr` computes
`cov/√(vx·vy)` and yields NaN (`none`) when a series is constant (zero
variance) or the pair has no common row; `.round(3)` is numpy half-even
rounding. The rounded value `sign(cov) · round(1000·√(cov²/(vx·vy)))/1000`
is an exact rational, computed here via `sqrtRoundHE`. -/
def corrEntry (f : Frame) (a b : String) : Option ℚ :=
  let s := covSums (bothPresent (f.column a) (f.column b))
  if s.2.1 = 0 ∨ s.2.2 = 0 then none
  else some ((if s.1 < 0 then (-1 : ℚ) else 1)
    * (sqrtRoundHE (10 ^ 6 * s.1 ^ 2 / (s.2.1 * s.2.2)) : ℚ) / 1000)

/-- The function `analyze_correlations` (lines 156-166): the country ×
country matrix of rounded pairwise correlations; rows and columns are both
indexed by the frame's country list (the matrix is square over it). -/
def analyze_correlations (f : Frame) : List String × (String → String → Option ℚ) :=
  (f.colNames, fun a b => corrEntry f a b)

/-- A list of rationals that is constant (at most one distinct value).
`covSums` degenerates to zero variance exactly on such columns. -/
def AllEqQ (l : List ℚ) : Prop := ∀ u ∈ l, ∀ v ∈ l, u = v

instance (l : List ℚ) : Decidable (AllEqQ l) := by unfold AllEqQ; infer_instance

/-- The row `df.loc[y]` of the report's crisis-impact section: one (country,
cell) pair per column, in column order. -/
def rowAt (f : Frame) (y : ℤ) : List (String × Option ℚ) :=
  f.cols.map (fun col =>
    (col.1,
      match f.years.findIdx? (fun z => z == y) with
      | some i => (col.2[i]?).join
      | none => none))

/-- The series `df.loc[y].sort_values()` (lines 334, 340): stable ascending
sort of the present cells, NaN cells appended last in original order. -/
def sortedRowAt (f : Frame) (y : ℤ) : List (String × Option ℚ) :=
  let row := rowAt f y
  let defined := row.filter (fun cv => cv.2.isSome)
  let nans := row.filter (fun cv => cv.2.isNone)
  stableSortByKey (fun cv => cv.2.getD 0) defined ++ nans

/-- One crisis-year block of `print_analysis_report` (lines 332-336 for
2009, lines 338-342 for 2020): printed only under `if y in df.index:`, and
then lists the first three entries of the ascending-sorted row. -/
def crisisSection (f : Frame) (y : ℤ) : Option (List (String × Option ℚ)) :=
  if y ∈ f.years then some ((sortedRowAt f y).take 3) else none

/-- The two crisis-year sections of the report, for the fixed years 2009
and 2020. -/
def reportCrisisSections (f : Frame) :
    Option (List (String × Option ℚ)) × Option (List (String × Option ℚ)) :=
  (crisisSection f 2009, crisisSection f 2020)

/-- The `corr_pairs` list of the report (lines 347-350): every unordered
country pair in discovery order — the nested loop takes each column `c1`
together with every later column `c2`. The correlation values are supplied
by a total assignment `v` (the report reads them from the correlation
matrix; this models the generic selection logic of the section). -/
def discoveredPairs : List String → (String → String → ℚ) → List (String × String × ℚ)
  | [], _ => []
  | c :: rest, v => rest.map (fun c2 => (c, c2, v c c2)) ++ discoveredPairs rest v

/-- The sorted pair list `corr_pairs.sort(key=lambda x: abs(x[2]),
reverse=True)` (line 351), decorated with discovery positions: Python's
`list.sort` is stable and `reverse=True` keeps equal keys in discovery
order, i.e. the stable descending sort by `abs`, modelled as the stable
ascending sort by its negation. -/
def sortedCorrPairs (countries : List String) (v : String → String → ℚ) :
    List ((ℕ × ℚ) × (String × String × ℚ)) :=
  (decorate (fun p => -|p.2.2|) (discoveredPairs countries v)).insertionSort onKey

/-- The report's correlation section (lines 352-353): the first five pairs
of the sorted list. -/
def topCorrelatedPairs (countries : List String) (v : String → String → ℚ) :
    List (String × String × ℚ) :=
  ((sortedCorrPairs countries v).map (fun t => t.2)).take 5

/-- A cell that `(df > 0)` and `(df < 0)` both count as `False`: an exact
zero or a missing value. -/
def isZeroOrMissing : Option ℚ → Bool
  | some x => decide (x = 0)
  | none => true

/-- Position of a country in the frame's original column order (used to
state the stable tie-break of the sorted statistics table). -/
def origPos (names : List String) (c : String) : ℕ :=
  names.findIdx (fun z => z == c)

/-! Helper lemmas about the synthetic generator. -/

theorem sampleRate_2009 (p : Params) (s : RandState) :
    (sampleRate p 2009 s).1 = round2 p.crisis_impact := by
  norm_num [sampleRate]

theorem sampleRate_2020 (p : Params) (s : RandState) :
    (sampleRate p 2020 s).1 = round2 (p.crisis_impact * (3/2)) := by
  norm_num [sampleRate]

theorem sampleRate_round2 (p : Params) (y : ℤ) (s : RandState) :
    ∃ q, (sampleRate p y s).1 = round2 q := by
  simp only [sampleRate]
  split_ifs <;> exact ⟨_, rfl⟩

theorem growthRates_length (p : Params) :
    ∀ (ys : List ℤ) (s : RandState), (growthRates p ys s).1.length = ys.length
  | [], _ => rfl
  | y :: ys, s => by simp [growthRates, growthRates_length p ys]

theorem growthRates_getElem?_of_const (p : Params) (y : ℤ) (v : ℚ)
    (h : ∀ s, (sampleRate p y s).1 = v) :
    ∀ (ys : List ℤ) (i : ℕ) (s : RandState), ys[i]? = some y →
      (growthRates p ys s).1[i]? = some v
  | [], i, _, hy => by simp at hy
  | z :: ys, 0, s, hy => by
    simp only [List.getElem?_cons_zero, Option.some_inj] at hy
    subst hy
    simp [growthRates, h]
  | z :: ys, i + 1, s, hy => by
    simp only [List.getElem?_cons_succ] at hy
    simpa [growthRates] using
      growthRates_getElem?_of_const p y v h ys i (sampleRate p z s).2 hy

theorem growthRates_getElem?_round2 (p : Params) :
    ∀ (ys : List ℤ) (s : RandState) (i : ℕ) (v : ℚ),
      (growthRates p ys s).1[i]? = some v → ∃ q, v = round2 q
  | [], s, i, v, h => by simp [growthRates] at h
  | y :: ys, s, 0, v, h => by
    simp only [growthRates, List.getElem?_cons_zero, Option.some_inj] at h
    obtain ⟨q, hq⟩ := sampleRate_round2 p y s
    exact ⟨q, by rw [← h, hq]⟩
  | y :: ys, s, i + 1, v, h => by
    simp only [growthRates, List.getElem?_cons_succ] at h
    exact growthRates_getElem?_round2 p ys (sampleRate p y s).2 i v h

theorem find?_pair_cons_pos {β : Type _} {c c1 : String} {p1 : β} {rest : List (String × β)}
    (hc : (c1 == c) = true) :
    ((c1, p1) :: rest).find? (fun x => x.1 == c) = some (c1, p1) :=
  List.find?_cons_of_pos _ hc

theorem find?_pair_cons_neg {β : Type _} {c c1 : String} {p1 : β} {rest : List (String × β)}
    (hc : ¬(c1 == c) = true) :
    ((c1, p1) :: rest).find? (fun x => x.1 == c) = rest.find? (fun x => x.1 == c) :=
  List.find?_cons_of_neg _ hc

theorem buildData_find? (c : String) (p : Params) :
    ∀ (ps : List (String × Params)) (years : List ℤ) (s : RandState),
      ps.find? (fun x => x.1 == c) = some (c, p) →
      ∃ s2, ((buildData ps years s).1.find? (fun x => x.1 == c))
          = some (c, (growthRates p years s2).1)
  | [], years, s, h => by simp at h
  | (c1, p1) :: rest, years, s, h => by
    by_cases hc : (c1 == c) = true
    · rw [find?_pair_cons_pos hc] at h
      have h2 := Option.some_inj.mp h
      have hc1 : c1 = c := congrArg Prod.fst h2
      have hp1 : p1 = p := congrArg Prod.snd h2
      refine ⟨s, ?_⟩
      simp only [buildData]
      rw [find?_pair_cons_pos hc, hc1, hp1]
    · rw [find?_pair_cons_neg hc] at h
      obtain ⟨s2, hs2⟩ := buildData_find? c p rest years (growthRates p1 years s).2 h
      refine ⟨s2, ?_⟩
      simp only [buildData]
      rw [find?_pair_cons_neg hc]
      exact hs2

theorem buildData_names :
    ∀ (ps : List (String × Params)) (years : List ℤ) (s : RandState),
      (buildData ps years s).1.map (fun x => x.1) = ps.map (fun x => x.1)
  | [], _, _ => rfl
  | (c1, p1) :: rest, years, s => by
    simp [buildData, buildData_names rest years (growthRates p1 years s).2]

theorem find?_name_of_mem (c : String) :
    ∀ (ps : List (String × Params)), c ∈ ps.map (fun x => x.1) →
      ∃ p, ps.find? (fun x => x.1 == c) = some (c, p)
  | [], h => by simp at h
  | (c1, p1) :: rest, h => by
    by_cases hc : (c1 == c) = true
    · refine ⟨p1, ?_⟩
      rw [find?_pair_cons_pos hc, beq_iff_eq.mp hc]
    · have hm : c ∈ rest.map (fun x => x.1) := by
        rcases List.mem_cons.mp h with h1 | h1
        · exact absurd (by simp [h1]) hc
        · exact h1
      obtain ⟨p, hp⟩ := find?_name_of_mem c rest hm
      refine ⟨p, ?_⟩
      rw [find?_pair_cons_neg hc]
      exact hp

theorem findIdx?_year_of_mem (y : ℤ) :
    ∀ (ys : List ℤ), y ∈ ys →
      ∃ i, ys.findIdx? (fun z => z == y) = some i ∧ ys[i]? = some y
  | [], h => by simp at h
  | z :: ys, h => by
    by_cases hz : (z == y) = true
    · exact ⟨0, by simp [List.findIdx?_cons, hz], by simpa using (beq_iff_eq ..).mp hz⟩
    · have hm : y ∈ ys := by
        rcases List.mem_cons.mp h with h1 | h1
        · exact absurd (by simp [h1]) hz
        · exact h1
      obtain ⟨i, hi, hg⟩ := findIdx?_year_of_mem y ys hm
      exact ⟨i + 1, by simp [List.findIdx?_cons, hz, hi], by simpa using hg⟩

theorem create_cell_eq (mt42 : Nat → ℚ) (s0 : RandState) (startY endY y : ℤ)
    (c : String) (p : Params) (i : ℕ)
    (hfind : base_patterns.find? (fun x => x.1 == c) = some (c, p))
    (hidx : (yearRange startY endY).findIdx? (fun z => z == y) = some i) :
    ∃ s2, (create_sample_data mt42 s0 startY endY).cell c y
      = (growthRates p (yearRange startY endY) s2).1[i]? := by
  obtain ⟨s2, hbf⟩ :=
    buildData_find? c p base_patterns (yearRange startY endY) ⟨mt42, 0⟩ hfind
  refine ⟨s2, ?_⟩
  simp only [Frame.cell, Frame.column, create_sample_data, npRandomSeed, hidx]
  rw [List.find?_map]
  simp only [Function.comp_def, hbf, Option.map_some, List.getElem?_map]
  cases hg : (growthRates p (yearRange startY endY) s2).1[i]? <;> simp [hg]

/-- C1: with the fixed seed, year range 2000-2023 and the United States
parameters (mean 2.3, std 2.0, crisis_impact -3.5), the generated United
States value for 2009 is exactly -3.5 (the crisis-trough override replaces
the drawn value) and for 2020 exactly -5.25 (1.5 times the crisis impact),
for every seed-42 normal stream, both unchanged by two-decimal rounding. -/
theorem c1_crisis_year_overrides (mt42 : Nat → ℚ) (s0 : RandState) :
    (create_sample_data mt42 s0 2000 2023).cell "United States" 2009 = some (-7/2)
    ∧ (create_sample_data mt42 s0 2000 2023).cell "United States" 2020 = some (-21/4) := by
  have hfind : base_patterns.find? (fun x => x.1 == "United States")
      = some ("United States", ⟨23/10, 2, -7/2⟩) := rfl
  constructor
  · obtain ⟨s2, hc⟩ :=
      create_cell_eq mt42 s0 2000 2023 2009 "United States" ⟨23/10, 2, -7/2⟩ 9 hfind
        (by decide)
    have hv : ∀ s, (sampleRate (⟨23/10, 2, -7/2⟩ : Params) 2009 s).1 = -7/2 := by
      intro s
      rw [sampleRate_2009]
      with_unfolding_all decide
    rw [hc, growthRates_getElem?_of_const _ 2009 (-7/2) hv _ 9 s2 (by decide)]
  · obtain ⟨s2, hc⟩ :=
      create_cell_eq mt42 s0 2000 2023 2020 "United States" ⟨23/10, 2, -7/2⟩ 20 hfind
        (by decide)
    have hv : ∀ s, (sampleRate (⟨23/10, 2, -7/2⟩ : Params) 2020 s).1 = -21/4 := by
      intro s
      rw [sampleRate_2020]
      with_unfolding_all decide
    rw [hc, growthRates_getElem?_of_const _ 2020 (-21/4) hv _ 20 s2 (by decide)]

/-- C2: the synthetic generator seeds the process-local RNG with the fixed
seed before drawing, so for every year range two invocations — whatever RNG
states they start from — produce identical output matrices. -/
theorem c2_generator_determinism (mt42 : Nat → ℚ) (s0 s1 : RandState) (startY endY : ℤ) :
    create_sample_data mt42 s0 startY endY = create_sample_data mt42 s1 startY endY := rfl

/-- C9: for every year range the generated matrix is fully populated: its
year index is exactly the inclusive requested range in ascending order, its
columns are exactly the registry countries, and every (country, year) cell
holds a value that is an integer multiple of 1/100 (two-decimal rounding). -/
theorem c9_generator_fully_populated (mt42 : Nat → ℚ) (s0 : RandState) (startY endY : ℤ) :
    (create_sample_data mt42 s0 startY endY).years = yearRange startY endY
    ∧ List.Chain' (fun a b => a < b) (create_sample_data mt42 s0 startY endY).years
    ∧ (create_sample_data mt42 s0 startY endY).colNames = base_patterns.map (fun x => x.1)
    ∧ ∀ c ∈ base_patterns.map (fun x => x.1), ∀ y ∈ yearRange startY endY,
        ∃ k : ℤ, (create_sample_data mt42 s0 startY endY).cell c y = some ((k : ℚ) / 100) := by
  refine ⟨rfl, ?_, ?_, ?_⟩
  · show List.Chain' _ (yearRange startY endY)
    apply List.Pairwise.chain'
    unfold yearRange
    exact List.Pairwise.map (fun i : ℕ => startY + (i : ℤ))
      (fun a b hab => add_lt_add_left (by exact_mod_cast hab) startY)
      (List.pairwise_lt_range _)
  · show Frame.colNames _ = _
    simp only [Frame.colNames, create_sample_data, npRandomSeed, List.map_map,
      Function.comp_def]
    exact buildData_names base_patterns (yearRange startY endY) ⟨mt42, 0⟩
  · intro c hc y hy
    obtain ⟨p, hfind⟩ := find?_name_of_mem c base_patterns hc
    obtain ⟨i, hidx, hget⟩ := findIdx?_year_of_mem y _ hy
    obtain ⟨s2, hcell⟩ := create_cell_eq mt42 s0 startY endY y c p i hfind hidx
    have hilen : i < (yearRange startY endY).length := (List.getElem?_eq_some.mp hget).1
    have hilen2 : i < (growthRates p (yearRange startY endY) s2).1.length := by
      rw [growthRates_length]
      exact hilen
    obtain ⟨v, hv⟩ : ∃ v, (growthRates p (yearRange startY endY) s2).1[i]? = some v :=
      ⟨_, List.getElem?_eq_getElem hilen2⟩
    obtain ⟨q, hq⟩ := growthRates_getElem?_round2 p _ s2 i v hv
    refine ⟨roundHalfEven (q * 100), ?_⟩
    rw [hcell, hv, hq]
    rfl

/-- Witness for C9 at a concrete input: the country and year memberships
hold and the generated cell is a two-decimal value. -/
theorem c9_generator_fully_populated_witness :
    "United States" ∈ base_patterns.map (fun x => x.1)
    ∧ (2000 : ℤ) ∈ yearRange 2000 2001
    ∧ ∃ k : ℤ, (create_sample_data (fun _ => 0) ⟨fun _ => 0, 0⟩ 2000 2001).cell
        "United States" 2000 = some ((k : ℚ) / 100) :=
  ⟨by decide, by decide,
    (c9_generator_fully_populated (fun _ => 0) ⟨fun _ => 0, 0⟩ 2000 2001).2.2.2
      "United States" (by decide) 2000 (by decide)⟩

/-- C3: the acquisition step consumes a single query outcome (no retry).
Any exception — from the query or from the transformation inside the `try`
block — is fully masked: the result is the synthetic generator's output for
the same year range and the full registry, and no fetched data is used. On
success the fetched matrix is returned with its columns renamed to display
names. -/
theorem c3_fetch_once_fallback_rename (mt42 : Nat → ℚ) (s0 : RandState) (startY endY : ℤ) :
    (∀ e, fetch_gdp_data mt42 s0 startY endY (Except.error e)
        = create_sample_data mt42 s0 startY endY)
    ∧ (∀ raw e, transformRaw raw = Except.error e →
        fetch_gdp_data mt42 s0 startY endY (Except.ok raw)
          = create_sample_data mt42 s0 startY endY)
    ∧ (∀ raw df, transformRaw raw = Except.ok df →
        fetch_gdp_data mt42 s0 startY endY (Except.ok raw) = df
        ∧ df.colNames = (raw.codes.zip raw.vals).map (fun cv => renameEconomy cv.1)) := by
  have hfo : ∀ raw, fetch_gdp_data mt42 s0 startY endY (Except.ok raw)
      = match transformRaw raw with
        | Except.ok df => df
        | Except.error _ => create_sample_data mt42 s0 startY endY := fun _ => rfl
  have hto : ∀ raw, transformRaw raw
      = match raw.yearLabels.mapM parseYearLabel with
        | Except.ok years =>
          Except.ok ⟨years, (raw.codes.zip raw.vals).map (fun cv => (renameEconomy cv.1, cv.2))⟩
        | Except.error e => Except.error e := by
    intro raw
    show (raw.yearLabels.mapM parseYearLabel).bind _ = _
    rcases raw.yearLabels.mapM parseYearLabel with e | years <;> rfl
  refine ⟨fun e => rfl, ?_, ?_⟩
  · intro raw e h
    rw [hfo, h]
  · intro raw df h
    refine ⟨by rw [hfo, h], ?_⟩
    rw [hto] at h
    rcases hm : raw.yearLabels.mapM parseYearLabel with e | years <;> rw [hm] at h
    · simp at h
    · simp only [Except.ok.injEq] at h
      rw [← h]
      simp [Frame.colNames, List.map_map, Function.comp_def]

/-- Witness for C3 at concrete inputs: a successfully parsed fetch is
returned renamed, and a fetch whose transformation fails falls back to the
synthetic data. -/
theorem c3_fetch_once_fallback_rename_witness :
    fetch_gdp_data (fun _ => 0) ⟨fun _ => 0, 0⟩ 2000 2023
        (Except.ok ⟨["USA", "XYZ"], ["YR2000"], [[some 1], [none]]⟩)
      = (⟨[2000], [("United States", [some 1]), ("XYZ", [none])]⟩ : Frame)
    ∧ fetch_gdp_data (fun _ => 0) ⟨fun _ => 0, 0⟩ 2000 2023
        (Except.ok ⟨["USA"], ["bad"], [[some 1]]⟩)
      = create_sample_data (fun _ => 0) ⟨fun _ => 0, 0⟩ 2000 2023 := by
  constructor
  · exact ((c3_fetch_once_fallback_rename (fun _ => 0) ⟨fun _ => 0, 0⟩ 2000 2023).2.2
      ⟨["USA", "XYZ"], ["YR2000"], [[some 1], [none]]⟩
      ⟨[2000], [("United States", [some 1]), ("XYZ", [none])]⟩ rfl).1
  · exact (c3_fetch_once_fallback_rename (fun _ => 0) ⟨fun _ => 0, 0⟩ 2000 2023).2.1
      ⟨["USA"], ["bad"], [[some 1]]⟩ "bad" rfl

/-! Helper lemmas about the stable-sort model and the statistics table. -/

theorem decorate_mem {α : Type _} (key : α → ℚ) (l : List α) :
    ∀ x ∈ decorate key l, x.1.2 = key x.2 ∧ l.get? x.1.1 = some x.2 := by
  intro x hx
  simp only [decorate, List.mem_map] at hx
  obtain ⟨ia, hia, hxe⟩ := hx
  have h1 := List.mem_enum_iff_get?.mp hia
  subst hxe
  exact ⟨rfl, h1⟩

theorem sortedDecorated_pairwise {α : Type _} (key : α → ℚ) (l : List α) :
    ((decorate key l).insertionSort onKey).Pairwise onKey :=
  List.sorted_insertionSort onKey (decorate key l)

theorem decorate_idx_nodup {α : Type _} (key : α → ℚ) (l : List α) :
    ((decorate key l).map (fun x => x.1.1)).Nodup := by
  have he : (decorate key l).map (fun x => x.1.1) = l.enum.map (fun ia => ia.1) := by
    simp [decorate, List.map_map, Function.comp_def]
  rw [he]
  have := List.enum_map_fst l
  simp only [Function.comp_def] at this ⊢
  rw [show (fun ia : ℕ × α => ia.1) = Prod.fst from rfl, this]
  exact List.nodup_range _

theorem sortedDecorated_idx_ne {α : Type _} (key : α → ℚ) (l : List α) :
    ((decorate key l).insertionSort onKey).Pairwise (fun a b => a.1.1 ≠ b.1.1) := by
  have hperm := (List.perm_insertionSort onKey (decorate key l)).map (fun x => x.1.1)
  have hnd : (((decorate key l).insertionSort onKey).map (fun x => x.1.1)).Nodup :=
    hperm.nodup_iff.mpr (decorate_idx_nodup key l)
  exact List.pairwise_map.mp hnd

theorem sortedDecorated_strong {α : Type _} (key : α → ℚ) (l : List α) :
    ((decorate key l).insertionSort onKey).Pairwise
      (fun a b => onKey a b ∧ a.1.1 ≠ b.1.1) :=
  (sortedDecorated_pairwise key l).and (sortedDecorated_idx_ne key l)

theorem origPos_get (names : List String) :
    names.Nodup → ∀ (i : ℕ) (c : String), names.get? i = some c → origPos names c = i := by
  induction names with
  | nil => intro _ i c h; simp at h
  | cons n rest ih =>
    intro hnd i c h
    rcases i with _ | i
    · simp only [List.get?_cons_zero, Option.some_inj] at h
      subst h
      simp [origPos, List.findIdx_cons]
    · simp only [List.get?_cons_succ] at h
      have hc : c ∈ rest := List.get?_mem h
      have hne : ¬(n == c) = true := by
        intro hb
        exact (List.nodup_cons.mp hnd).1 (beq_iff_eq.mp hb ▸ hc)
      have := ih (List.nodup_cons.mp hnd).2 i c h
      simp [origPos, List.findIdx_cons, hne] at this ⊢
      omega

theorem mkStatRow_country (f : Frame) (c : String) : (mkStatRow f c).country = c := rfl

/-- C4: the summary-statistics table is sorted descending by mean — every
earlier row's mean is at least every later row's mean — and countries with
equal (rounded) means appear in their original column order, the stable
tie-break of the sort primitive the source relies on. Stated for frames
with distinct column names in which every column's mean is defined. -/
theorem c4_stats_sorted_desc_stable (f : Frame)
    (hnd : f.colNames.Nodup)
    (hs : ∀ c ∈ f.colNames, ((mkStatRow f c).avgGrowth).isSome = true) :
    (calculate_statistics f).Pairwise
      (fun r s => (∀ x y, r.avgGrowth = some x → s.avgGrowth = some y → y ≤ x)
        ∧ (r.avgGrowth = s.avgGrowth →
            origPos f.colNames r.country < origPos f.colNames s.country)) := by
  have hrows : ∀ r ∈ f.colNames.map (mkStatRow f), r.avgGrowth.isSome = true := by
    intro r hr
    obtain ⟨c, hc, hrc⟩ := List.mem_map.mp hr
    exact hrc ▸ hs c hc
  have hfs : (f.colNames.map (mkStatRow f)).filter (fun r => r.avgGrowth.isSome)
      = f.colNames.map (mkStatRow f) := List.filter_eq_self.mpr hrows
  have hfn : (f.colNames.map (mkStatRow f)).filter (fun r => r.avgGrowth.isNone) = [] := by
    rw [List.filter_eq_nil_iff]
    intro r hr
    have h1 := hrows r hr
    simp only [Option.isNone_iff_eq_none]
    intro hnone
    rw [hnone] at h1
    simp at h1
  have hcs : calculate_statistics f
      = stableSortByKey (fun r => -(r.avgGrowth.getD 0)) (f.colNames.map (mkStatRow f)) := by
    rw [calculate_statistics]
    simp only [hfs, hfn, List.append_nil]
  rw [hcs]
  unfold stableSortByKey
  rw [List.pairwise_map]
  refine List.Pairwise.imp_of_mem ?_
    (sortedDecorated_strong (fun r => -(r.avgGrowth.getD 0)) (f.colNames.map (mkStatRow f)))
  intro a b ha hb hab
  obtain ⟨hka, hga⟩ := decorate_mem _ _ a ((List.mem_insertionSort onKey).mp ha)
  obtain ⟨hkb, hgb⟩ := decorate_mem _ _ b ((List.mem_insertionSort onKey).mp hb)
  have hka2 : a.1.2 = -(a.2.avgGrowth.getD 0) := hka
  have hkb2 : b.1.2 = -(b.2.avgGrowth.getD 0) := hkb
  rw [List.get?_map] at hga hgb
  obtain ⟨ca, hca, hmka⟩ := Option.map_eq_some'.mp hga
  obtain ⟨cb, hcb, hmkb⟩ := Option.map_eq_some'.mp hgb
  have hcaM : ca ∈ f.colNames := List.get?_mem hca
  have hcbM : cb ∈ f.colNames := List.get?_mem hcb
  have hsa := hs ca hcaM
  have hsb := hs cb hcbM
  rw [hmka] at hsa
  rw [hmkb] at hsb
  obtain ⟨va, hva⟩ := Option.isSome_iff_exists.mp hsa
  obtain ⟨vb, hvb⟩ := Option.isSome_iff_exists.mp hsb
  have hlex : a.1.2 < b.1.2 ∨ (a.1.2 = b.1.2 ∧ a.1.1 ≤ b.1.1) := hab.1
  constructor
  · intro x y hx hy
    rw [hx, Option.getD_some] at hka2
    rw [hy, Option.getD_some] at hkb2
    rcases hlex with hlt | ⟨heq, _⟩
    · rw [hka2, hkb2] at hlt
      linarith
    · rw [hka2, hkb2] at heq
      have := neg_injective heq
      linarith
  · intro heq
    have hkeq : a.1.2 = b.1.2 := by rw [hka2, hkb2, heq]
    have hle : a.1.1 ≤ b.1.1 := by
      rcases hlex with hlt | ⟨_, hle⟩
      · rw [hkeq] at hlt
        exact absurd hlt (lt_irrefl _)
      · exact hle
    have hlt : a.1.1 < b.1.1 := lt_of_le_of_ne hle hab.2
    have hpa : origPos f.colNames a.2.country = a.1.1 := by
      rw [← hmka, mkStatRow_country]
      exact origPos_get f.colNames hnd a.1.1 ca hca
    have hpb : origPos f.colNames b.2.country = b.1.1 := by
      rw [← hmkb, mkStatRow_country]
      exact origPos_get f.colNames hnd b.1.1 cb hcb
    rw [hpa, hpb]
    exact hlt

/-- Witness for C4 at a concrete three-country frame in which two countries
tie on the mean: the hypotheses hold and the table is sorted descending
with the tie in original column order. -/
theorem c4_stats_sorted_desc_stable_witness :
    (⟨[2000, 2001], [("A", [some 1, some 3]), ("B", [some 3, some 1]),
        ("C", [some 0, some 0])]⟩ : Frame).colNames.Nodup
    ∧ (∀ c ∈ (⟨[2000, 2001], [("A", [some 1, some 3]), ("B", [some 3, some 1]),
        ("C", [some 0, some 0])]⟩ : Frame).colNames,
        ((mkStatRow ⟨[2000, 2001], [("A", [some 1, some 3]), ("B", [some 3, some 1]),
          ("C", [some 0, some 0])]⟩ c).avgGrowth).isSome = true)
    ∧ (calculate_statistics ⟨[2000, 2001], [("A", [some 1, some 3]),
        ("B", [some 3, some 1]), ("C", [some 0, some 0])]⟩).Pairwise
      (fun r s => (∀ x y, r.avgGrowth = some x → s.avgGrowth = some y → y ≤ x)
        ∧ (r.avgGrowth = s.avgGrowth →
            origPos (⟨[2000, 2001], [("A", [some 1, some 3]), ("B", [some 3, some 1]),
              ("C", [some 0, some 0])]⟩ : Frame).colNames r.country
            < origPos (⟨[2000, 2001], [("A", [some 1, some 3]), ("B", [some 3, some 1]),
              ("C", [some 0, some 0])]⟩ : Frame).colNames s.country)) :=
  ⟨by decide, by with_unfolding_all decide,
    c4_stats_sorted_desc_stable _ (by decide) (by with_unfolding_all decide)⟩

/-- C10: in the summary statistics, a year whose value is exactly zero or
missing is counted in neither the positive-years nor the negative-years
count — the two counts plus the zero-or-missing count partition the
column — and on a concrete frame with a zero cell the two counts do not
sum to the number of years. -/
theorem c10_zero_or_missing_in_neither_count :
    (∀ (f : Frame) (c : String),
      (mkStatRow f c).positiveYears + (mkStatRow f c).negativeYears
        + (f.column c).countP isZeroOrMissing = (f.column c).length)
    ∧ (mkStatRow ⟨[2000, 2001], [("A", [some 0, some 1])]⟩ "A").positiveYears
      + (mkStatRow ⟨[2000, 2001], [("A", [some 0, some 1])]⟩ "A").negativeYears
      ≠ (⟨[2000, 2001], [("A", [some 0, some 1])]⟩ : Frame).years.length := by
  constructor
  · intro f c
    show (f.column c).countP isPosCell + (f.column c).countP isNegCell + _ = _
    induction f.column c with
    | nil => rfl
    | cons v rest ih =>
      rcases v with _ | x
      · simp [List.countP_cons, isPosCell, isNegCell, isZeroOrMissing]
        omega
      · rcases lt_trichotomy x 0 with hx | hx | hx
        · simp [List.countP_cons, isPosCell, isNegCell, isZeroOrMissing, hx,
            hx.ne, asymm hx]
          omega
        · subst hx
          simp [List.countP_cons, isPosCell, isNegCell, isZeroOrMissing]
          omega
        · simp [List.countP_cons, isPosCell, isNegCell, isZeroOrMissing, hx,
            hx.ne.symm, asymm hx]
          omega
  · with_unfolding_all decide

/-! Helper lemmas for the correlation matrix. -/

theorem list_sq_expand (x y : ℚ) :
    ∀ (l : List (ℚ × ℚ)),
      (l.map (fun p => (x * p.2 - y * p.1) ^ 2)).sum
        = x ^ 2 * (l.map (fun p => p.2 ^ 2)).sum
          - 2 * x * y * (l.map (fun p => p.1 * p.2)).sum
          + y ^ 2 * (l.map (fun p => p.1 ^ 2)).sum
  | [] => by simp
  | p :: l => by
    simp only [List.map_cons, List.sum_cons, list_sq_expand x y l]
    ring

theorem sum_sq_map_nonneg (g : (ℚ × ℚ) → ℚ) (l : List (ℚ × ℚ)) :
    0 ≤ (l.map (fun p => (g p) ^ 2)).sum := by
  apply List.sum_nonneg
  intro a ha
  obtain ⟨p, _, hp⟩ := List.mem_map.mp ha
  rw [← hp]
  positivity

theorem list_cauchy_schwarz :
    ∀ (l : List (ℚ × ℚ)),
      (l.map (fun p => p.1 * p.2)).sum ^ 2
        ≤ (l.map (fun p => p.1 ^ 2)).sum * (l.map (fun p => p.2 ^ 2)).sum
  | [] => by simp
  | (x, y) :: l => by
    have ih := list_cauchy_schwarz l
    have hT := sum_sq_map_nonneg (fun p => x * p.2 - y * p.1) l
    have hE := list_sq_expand x y l
    simp only [List.map_cons, List.sum_cons]
    nlinarith [ih, hT, hE]

theorem isqrtFuel_spec : ∀ (fuel n : ℕ), n ≤ fuel →
    (isqrtFuel fuel n) * (isqrtFuel fuel n) ≤ n
      ∧ n < (isqrtFuel fuel n + 1) * (isqrtFuel fuel n + 1)
  | 0, n, h => by
    simp only [isqrtFuel]
    omega
  | fuel + 1, n, h => by
    simp only [isqrtFuel]
    by_cases h2 : n < 2
    · rw [if_pos h2]
      have h4 : n = 0 ∨ n = 1 := by omega
      rcases h4 with h4 | h4 <;> subst h4 <;> norm_num
    · rw [if_neg h2]
      have hfuel : n / 4 ≤ fuel := by omega
      obtain ⟨ih1, ih2⟩ := isqrtFuel_spec fuel (n / 4) hfuel
      have hq1 : n / 4 * 4 ≤ n := by omega
      have hq2 : n < n / 4 * 4 + 4 := by omega
      by_cases h3 : (2 * isqrtFuel fuel (n / 4) + 1) * (2 * isqrtFuel fuel (n / 4) + 1) ≤ n
      · rw [if_pos h3]
        exact ⟨h3, by nlinarith [ih2, hq2]⟩
      · rw [if_neg h3]
        exact ⟨by nlinarith [ih1, hq1], Nat.lt_of_not_le h3⟩

theorem isqrt_eq_sqrt (n : ℕ) : isqrt n = Nat.sqrt n := by
  obtain ⟨h1, h2⟩ := isqrtFuel_spec n n (le_refl n)
  have h1a : isqrt n * isqrt n ≤ n := h1
  have h2a : n < (isqrt n + 1) * (isqrt n + 1) := h2
  have hs1 := Nat.sqrt_le n
  have hs2 : n < (Nat.sqrt n + 1) * (Nat.sqrt n + 1) := Nat.lt_succ_sqrt n
  have hle1 : isqrt n ≤ Nat.sqrt n := by
    by_contra hc
    push_neg at hc
    have hc2 : Nat.sqrt n + 1 ≤ isqrt n := hc
    have hmul : (Nat.sqrt n + 1) * (Nat.sqrt n + 1) ≤ isqrt n * isqrt n :=
      Nat.mul_le_mul hc2 hc2
    linarith [h1a, hs2, hmul]
  have hle2 : Nat.sqrt n ≤ isqrt n := by
    by_contra hc
    push_neg at hc
    have hc2 : isqrt n + 1 ≤ Nat.sqrt n := hc
    have hmul : (isqrt n + 1) * (isqrt n + 1) ≤ Nat.sqrt n * Nat.sqrt n :=
      Nat.mul_le_mul hc2 hc2
    linarith [hs1, h2a, hmul]
  omega

theorem sqrtRoundHE_le (x : ℚ) (k : ℕ) (h : x ≤ (k : ℚ) ^ 2) : sqrtRoundHE x ≤ k := by
  have hmk : Nat.sqrt ⌊x⌋.toNat ≤ k := by
    have h1 : ⌊x⌋ ≤ (k : ℤ) ^ 2 := by
      have h2 := Int.floor_le_floor h
      rwa [show ((k : ℚ) ^ 2 : ℚ) = (((k : ℤ) ^ 2 : ℤ) : ℚ) by push_cast; ring,
        Int.floor_intCast] at h2
    have h3 : ⌊x⌋.toNat ≤ k ^ 2 := by
      rcases le_or_lt ⌊x⌋ 0 with h4 | h4
      · have := Int.toNat_of_nonpos h4
        omega
      · have h5 : (⌊x⌋.toNat : ℤ) ≤ (k : ℤ) ^ 2 := by
          rwa [Int.toNat_of_nonneg h4.le]
        exact_mod_cast h5
    calc Nat.sqrt ⌊x⌋.toNat ≤ Nat.sqrt (k ^ 2) := Nat.sqrt_le_sqrt h3
      _ = k := by rw [pow_two, Nat.sqrt_eq]
  have hlt : ¬ x < ((Nat.sqrt ⌊x⌋.toNat : ℚ) + 1/2) ^ 2 → Nat.sqrt ⌊x⌋.toNat < k := by
    intro hn
    by_contra hkm
    have hc : (k : ℚ) ≤ (Nat.sqrt ⌊x⌋.toNat : ℚ) := by
      exact_mod_cast Nat.le_of_not_lt hkm
    have hn2 : ((Nat.sqrt ⌊x⌋.toNat : ℚ) + 1/2) ^ 2 ≤ x := not_lt.mp hn
    have hk0 : (0 : ℚ) ≤ (k : ℚ) := Nat.cast_nonneg k
    nlinarith [hn2, h, hc, hk0]
  show (if x < ((isqrt ⌊x⌋.toNat : ℚ) + 1/2) ^ 2 then isqrt ⌊x⌋.toNat
    else if ((isqrt ⌊x⌋.toNat : ℚ) + 1/2) ^ 2 < x then isqrt ⌊x⌋.toNat + 1
    else if isqrt ⌊x⌋.toNat % 2 = 0 then isqrt ⌊x⌋.toNat
    else isqrt ⌊x⌋.toNat + 1) ≤ k
  rw [isqrt_eq_sqrt]
  split_ifs with h1 h2 h3
  · exact hmk
  · exact hlt h1
  · exact hmk
  · exact hlt h1

theorem covSums_vx_nonneg (l : List (ℚ × ℚ)) : 0 ≤ (covSums l).2.1 := by
  simp only [covSums]
  exact sum_sq_map_nonneg _ l

theorem covSums_vy_nonneg (l : List (ℚ × ℚ)) : 0 ≤ (covSums l).2.2 := by
  simp only [covSums]
  exact sum_sq_map_nonneg _ l

theorem covSums_sq_le (l : List (ℚ × ℚ)) :
    (covSums l).1 ^ 2 ≤ (covSums l).2.1 * (covSums l).2.2 := by
  have h := list_cauchy_schwarz (l.map (fun p =>
    (p.1 - (l.map (fun p => p.1)).sum / (l.length : ℚ),
     p.2 - (l.map (fun p => p.2)).sum / (l.length : ℚ))))
  simp only [List.map_map, Function.comp_def] at h
  simp only [covSums]
  exact h

theorem bothPresent_swap (xs ys : List (Option ℚ)) :
    bothPresent ys xs = (bothPresent xs ys).map (fun p => (p.2, p.1)) := by
  induction xs generalizing ys with
  | nil => cases ys <;> rfl
  | cons x xst ih =>
    cases ys with
    | nil => rfl
    | cons y yst =>
      rcases x with _ | a <;> rcases y with _ | b <;>
        simp [bothPresent, List.zip_cons_cons, List.filterMap_cons] at * <;>
        exact ih yst

theorem covSums_swap_cov (l : List (ℚ × ℚ)) :
    (covSums (l.map (fun p => (p.2, p.1)))).1 = (covSums l).1 := by
  simp only [covSums, List.map_map, Function.comp_def, List.length_map]
  exact congrArg List.sum (List.map_congr_left (fun p _ => by ring))

theorem covSums_swap_vx (l : List (ℚ × ℚ)) :
    (covSums (l.map (fun p => (p.2, p.1)))).2.1 = (covSums l).2.2 := by
  simp only [covSums, List.map_map, Function.comp_def, List.length_map]

theorem covSums_swap_vy (l : List (ℚ × ℚ)) :
    (covSums (l.map (fun p => (p.2, p.1)))).2.2 = (covSums l).2.1 := by
  simp only [covSums, List.map_map, Function.comp_def, List.length_map]

theorem corrEntry_symm (f : Frame) (a b : String) : corrEntry f a b = corrEntry f b a := by
  simp only [corrEntry]
  rw [bothPresent_swap (f.column a) (f.column b)]
  rw [covSums_swap_cov, covSums_swap_vx, covSums_swap_vy]
  simp only [or_comm, mul_comm]

theorem sum_sq_dev_eq_zero (l0 : List ℚ) (m : ℚ)
    (h : (l0.map (fun v => (v - m) ^ 2)).sum = 0) : ∀ v ∈ l0, v = m := by
  induction l0 with
  | nil => simp
  | cons x t ih =>
    simp only [List.map_cons, List.sum_cons] at h
    have h1 : 0 ≤ (x - m) ^ 2 := sq_nonneg _
    have h2 : 0 ≤ (t.map (fun v => (v - m) ^ 2)).sum := by
      apply List.sum_nonneg
      intro a ha
      obtain ⟨v, _, hv⟩ := List.mem_map.mp ha
      rw [← hv]
      positivity
    have hx : (x - m) ^ 2 = 0 := by linarith
    have hxm : x = m := by
      have := pow_eq_zero_iff (n := 2) (by norm_num) |>.mp hx
      linarith [sub_eq_zero.mp this]
    intro v hv
    rcases List.mem_cons.mp hv with hv1 | hv1
    · exact hv1 ▸ hxm
    · exact ih (by linarith) v hv1

theorem sum_sq_dev_of_allEq (l0 : List ℚ) (h : AllEqQ l0) :
    (l0.map (fun v => (v - l0.sum / (l0.length : ℚ)) ^ 2)).sum = 0 := by
  rcases l0 with _ | ⟨u, t⟩
  · simp
  · have hall : ∀ v ∈ u :: t, v = u := fun v hv => h v hv u (List.mem_cons_self u t)
    have hlen : (((u :: t).length : ℕ) : ℚ) ≠ 0 := by
      simp only [List.length_cons]
      exact_mod_cast Nat.succ_ne_zero t.length
    have hsum : (u :: t).sum = (((u :: t).length : ℕ) : ℚ) * u := by
      rw [List.sum_eq_card_nsmul (u :: t) u hall, nsmul_eq_mul]
    have hm : (u :: t).sum / (((u :: t).length : ℕ) : ℚ) = u := by
      rw [hsum, mul_div_cancel_left₀ _ hlen]
    rw [hm]
    apply List.sum_eq_zero
    intro x hx
    obtain ⟨v, hv, hvx⟩ := List.mem_map.mp hx
    rw [← hvx, hall v hv]
    ring

theorem bothPresent_self (xs : List (Option ℚ)) :
    bothPresent xs xs = (xs.filterMap id).map (fun v => (v, v)) := by
  induction xs with
  | nil => rfl
  | cons x t ih =>
    rcases x with _ | v <;>
      simp only [bothPresent, List.zip_cons_cons, List.filterMap_cons, List.map_cons] at * <;>
      simp [ih]

theorem covSums_self_cov (l0 : List ℚ) :
    (covSums (l0.map (fun v => (v, v)))).1
      = (l0.map (fun v => (v - l0.sum / (l0.length : ℚ)) ^ 2)).sum := by
  simp only [covSums, List.map_map, Function.comp_def, List.length_map, List.map_id_fun,
    id, List.map_id']
  exact congrArg List.sum (List.map_congr_left (fun v _ => (pow_two _).symm))

theorem covSums_self_vx (l0 : List ℚ) :
    (covSums (l0.map (fun v => (v, v)))).2.1
      = (l0.map (fun v => (v - l0.sum / (l0.length : ℚ)) ^ 2)).sum := by
  simp only [covSums, List.map_map, Function.comp_def, List.length_map, List.map_id_fun,
    id, List.map_id']

theorem covSums_self_vy (l0 : List ℚ) :
    (covSums (l0.map (fun v => (v, v)))).2.2
      = (l0.map (fun v => (v - l0.sum / (l0.length : ℚ)) ^ 2)).sum := by
  simp only [covSums, List.map_map, Function.comp_def, List.length_map, List.map_id_fun,
    id, List.map_id']

theorem sqrtRoundHE_sq (k : ℕ) : sqrtRoundHE ((k : ℚ) ^ 2) = k := by
  have hfl : ⌊((k : ℚ) ^ 2)⌋.toNat = k ^ 2 := by
    rw [show ((k : ℚ) ^ 2) = (((k ^ 2 : ℕ) : ℤ) : ℚ) by push_cast; ring, Int.floor_intCast]
    exact Int.toNat_natCast (k ^ 2)
  have hcond : ((k : ℚ) ^ 2) < ((k : ℚ) + 1/2) ^ 2 := by
    have hk0 : (0 : ℚ) ≤ (k : ℚ) := Nat.cast_nonneg k
    nlinarith [hk0]
  show (if ((k : ℚ) ^ 2) < ((isqrt ⌊((k : ℚ) ^ 2)⌋.toNat : ℚ) + 1/2) ^ 2 then
      isqrt ⌊((k : ℚ) ^ 2)⌋.toNat
    else if ((isqrt ⌊((k : ℚ) ^ 2)⌋.toNat : ℚ) + 1/2) ^ 2 < ((k : ℚ) ^ 2) then
      isqrt ⌊((k : ℚ) ^ 2)⌋.toNat + 1
    else if isqrt ⌊((k : ℚ) ^ 2)⌋.toNat % 2 = 0 then isqrt ⌊((k : ℚ) ^ 2)⌋.toNat
    else isqrt ⌊((k : ℚ) ^ 2)⌋.toNat + 1) = k
  rw [isqrt_eq_sqrt, hfl, show (k ^ 2).sqrt = k from by rw [pow_two, Nat.sqrt_eq],
    if_pos hcond]

theorem sqrtRoundHE_million : sqrtRoundHE ((10 : ℚ) ^ 6) = 1000 := by
  rw [show ((10 : ℚ) ^ 6) = (((1000 : ℕ) : ℚ)) ^ 2 by norm_num]
  exact sqrtRoundHE_sq 1000

theorem corrEntry_diag (f : Frame) (a : String)
    (h : ¬ AllEqQ ((f.column a).filterMap id)) :
    corrEntry f a a = some 1 := by
  set l0 := (f.column a).filterMap id with hl0
  set S := (l0.map (fun v => (v - l0.sum / (l0.length : ℚ)) ^ 2)).sum with hSdef
  have hSnn : 0 ≤ S := by
    rw [hSdef]
    apply List.sum_nonneg
    intro x hx
    obtain ⟨v, _, hv⟩ := List.mem_map.mp hx
    rw [← hv]
    positivity
  have hSnz : S ≠ 0 := by
    intro h0
    apply h
    intro u hu v hv
    have hu2 := sum_sq_dev_eq_zero l0 _ (hSdef ▸ h0) u hu
    have hv2 := sum_sq_dev_eq_zero l0 _ (hSdef ▸ h0) v hv
    rw [hu2, hv2]
  have hSpos : 0 < S := lt_of_le_of_ne hSnn (Ne.symm hSnz)
  have hbp : bothPresent (f.column a) (f.column a) = l0.map (fun v => (v, v)) :=
    bothPresent_self (f.column a)
  simp only [corrEntry, hbp, covSums_self_cov, covSums_self_vx, covSums_self_vy, ← hSdef]
  have hcond : ¬ (S = 0 ∨ S = 0) := by simp [hSnz]
  rw [if_neg hcond, if_neg (not_lt.mpr hSpos.le)]
  have harg : (10 : ℚ) ^ 6 * S ^ 2 / (S * S) = 10 ^ 6 := by
    rw [← pow_two, mul_div_assoc, div_self (pow_ne_zero 2 hSnz), mul_one]
  rw [harg, sqrtRoundHE_million]
  norm_num

theorem corrEntry_bounds (f : Frame) (a b : String) (v : ℚ)
    (h : corrEntry f a b = some v) : -1 ≤ v ∧ v ≤ 1 := by
  set s := covSums (bothPresent (f.column a) (f.column b)) with hs
  by_cases hc : s.2.1 = 0 ∨ s.2.2 = 0
  · simp only [corrEntry, ← hs, if_pos hc] at h
    exact absurd h (by simp)
  · simp only [corrEntry, ← hs, if_neg hc] at h
    push_neg at hc
    have hvx0 : 0 ≤ s.2.1 := by rw [hs]; exact covSums_vx_nonneg _
    have hvy0 : 0 ≤ s.2.2 := by rw [hs]; exact covSums_vy_nonneg _
    have hvx : 0 < s.2.1 := lt_of_le_of_ne hvx0 (Ne.symm hc.1)
    have hvy : 0 < s.2.2 := lt_of_le_of_ne hvy0 (Ne.symm hc.2)
    have hsq : s.1 ^ 2 ≤ s.2.1 * s.2.2 := by rw [hs]; exact covSums_sq_le _
    have harg : (10 : ℚ) ^ 6 * s.1 ^ 2 / (s.2.1 * s.2.2) ≤ ((1000 : ℕ) : ℚ) ^ 2 := by
      rw [div_le_iff₀ (by positivity)]
      push_cast
      nlinarith [hsq]
    have hle := sqrtRoundHE_le _ 1000 harg
    have hleQ : ((sqrtRoundHE ((10 : ℚ) ^ 6 * s.1 ^ 2 / (s.2.1 * s.2.2)) : ℕ) : ℚ) ≤ 1000 := by
      exact_mod_cast hle
    have hnnQ : (0 : ℚ) ≤ ((sqrtRoundHE ((10 : ℚ) ^ 6 * s.1 ^ 2 / (s.2.1 * s.2.2)) : ℕ) : ℚ) :=
      Nat.cast_nonneg _
    rw [Option.some_inj] at h
    subst h
    split_ifs with hsg <;> constructor <;> linarith

theorem covSums_vx_eq (l : List (ℚ × ℚ)) :
    (covSums l).2.1
      = ((l.map (fun p => p.1)).map
          (fun v => (v - (l.map (fun p => p.1)).sum
            / ((l.map (fun p => p.1)).length : ℚ)) ^ 2)).sum := by
  simp only [covSums, List.map_map, Function.comp_def, List.length_map]

theorem bothPresent_fst_mem (xs : List (Option ℚ)) :
    ∀ (ys : List (Option ℚ)), ∀ x ∈ (bothPresent xs ys).map (fun p => p.1),
      x ∈ xs.filterMap id := by
  induction xs with
  | nil => intro ys x hx; cases ys <;> simp [bothPresent] at hx
  | cons a t ih =>
    intro ys x hx
    cases ys with
    | nil => simp [bothPresent] at hx
    | cons b u =>
      rcases a with _ | va <;> rcases b with _ | vb
      · simp only [bothPresent, List.zip_cons_cons, List.filterMap_cons] at hx
        simp only [List.filterMap_cons, id]
        exact ih u x hx
      · simp only [bothPresent, List.zip_cons_cons, List.filterMap_cons] at hx
        simp only [List.filterMap_cons, id]
        exact ih u x hx
      · simp only [bothPresent, List.zip_cons_cons, List.filterMap_cons] at hx
        simp only [List.filterMap_cons, id, List.mem_cons]
        exact Or.inr (ih u x hx)
      · simp only [bothPresent, List.zip_cons_cons, List.filterMap_cons, List.map_cons,
          List.mem_cons] at hx
        simp only [List.filterMap_cons, id, List.mem_cons]
        rcases hx with hx | hx
        · exact Or.inl hx
        · exact Or.inr (ih u x hx)

theorem corrEntry_none_of_allEq_left (f : Frame) (a b : String)
    (h : AllEqQ ((f.column a).filterMap id)) :
    corrEntry f a b = none := by
  set l := bothPresent (f.column a) (f.column b) with hl
  have hsub : ∀ x ∈ l.map (fun p => p.1), x ∈ (f.column a).filterMap id := by
    rw [hl]
    exact bothPresent_fst_mem (f.column a) (f.column b)
  have hAE : AllEqQ (l.map (fun p => p.1)) := fun u hu v hv => h u (hsub u hu) v (hsub v hv)
  have hvx : (covSums l).2.1 = 0 := by
    rw [covSums_vx_eq]
    exact sum_sq_dev_of_allEq _ hAE
  simp only [corrEntry, ← hl, if_pos (Or.inl hvx)]

theorem column_eq_nil_of_not_mem (f : Frame) (a : String) (ha : a ∉ f.colNames) :
    f.column a = [] := by
  unfold Frame.column
  have hnone : f.cols.find? (fun col => col.1 == a) = none := by
    rw [List.find?_eq_none]
    intro x hx hbeq
    exact ha (List.mem_map.mpr ⟨x, hx, beq_iff_eq.mp hbeq⟩)
  rw [hnone]

/-- C5 (amended): for every GrowthMatrix the correlation matrix of
`analyze_correlations` is square over the frame's own country list and
symmetric; the diagonal entry of every country whose present series is not
constant equals 1.0; and every defined entry lies in [-1, 1]. The original
claim's unconditional "diagonal = 1.0 and all values in [-1, 1]" fails for
a constant series, where the entry is the NaN fallback instead (see the
counterexample). -/
theorem c5_correlation_matrix_props (f : Frame) :
    (analyze_correlations f).1 = f.colNames
    ∧ (∀ a b, (analyze_correlations f).2 a b = (analyze_correlations f).2 b a)
    ∧ (∀ a, ¬ AllEqQ ((f.column a).filterMap id) →
        (analyze_correlations f).2 a a = some 1)
    ∧ (∀ a b v, (analyze_correlations f).2 a b = some v → -1 ≤ v ∧ v ≤ 1) :=
  ⟨rfl, fun a b => corrEntry_symm f a b, fun a ha => corrEntry_diag f a ha,
   fun a b v h => corrEntry_bounds f a b v h⟩

/-- Counterexample to C5 as stated: in a matrix containing a constant
series, that country's diagonal correlation entry is the NaN fallback, not
1.0. -/
theorem c5_counterexample_constant_diagonal :
    (analyze_correlations ⟨[2000, 2001], [("A", [some 1, some 1])]⟩).2 "A" "A"
      ≠ some 1 := by
  with_unfolding_all decide

set_option maxRecDepth 8000 in
/-- Witness for C5 at a concrete two-country frame with non-constant
series: the non-constancy hypotheses hold, the diagonal is 1 and a defined
entry obeys the bounds. -/
theorem c5_correlation_matrix_props_witness :
    (¬ AllEqQ (((⟨[2000, 2001], [("A", [some 1, some 3]), ("B", [some 2, some 5])]⟩
        : Frame).column "A").filterMap id))
    ∧ (analyze_correlations
        ⟨[2000, 2001], [("A", [some 1, some 3]), ("B", [some 2, some 5])]⟩).2 "A" "A"
        = some 1
    ∧ (-1 ≤ (1 : ℚ) ∧ (1 : ℚ) ≤ 1) :=
  ⟨by with_unfolding_all decide,
   (c5_correlation_matrix_props
      ⟨[2000, 2001], [("A", [some 1, some 3]), ("B", [some 2, some 5])]⟩).2.2.1 "A"
     (by with_unfolding_all decide),
   (c5_correlation_matrix_props
      ⟨[2000, 2001], [("A", [some 1, some 3]), ("B", [some 2, some 5])]⟩).2.2.2 "A" "B" 1
     (by with_unfolding_all decide)⟩

/-- C6: for a GrowthMatrix in which every country's series is constant
year by year, the correlation computation is total (no error is possible)
and every off-diagonal entry equals the single defined fallback `none`
(pandas NaN) for the indeterminate correlation of constant series. -/
theorem c6_constant_series_fallback (f : Frame)
    (h : ∀ c ∈ f.colNames, AllEqQ ((f.column c).filterMap id)) :
    ∀ a b, a ≠ b → (analyze_correlations f).2 a b = none := by
  intro a b _
  by_cases ha : a ∈ f.colNames
  · exact corrEntry_none_of_allEq_left f a b (h a ha)
  · apply corrEntry_none_of_allEq_left
    rw [column_eq_nil_of_not_mem f a ha]
    intro u hu
    simp at hu

set_option maxRecDepth 8000 in
/-- Witness for C6 at a concrete frame whose two series are constant: the
constancy hypothesis holds and the off-diagonal entry is the fallback. -/
theorem c6_constant_series_fallback_witness :
    (∀ c ∈ (⟨[2000, 2001], [("A", [some 1, some 1]), ("B", [some 2, some 2])]⟩
        : Frame).colNames,
      AllEqQ (((⟨[2000, 2001], [("A", [some 1, some 1]), ("B", [some 2, some 2])]⟩
        : Frame).column c).filterMap id))
    ∧ ("A" : String) ≠ "B"
    ∧ (analyze_correlations
        ⟨[2000, 2001], [("A", [some 1, some 1]), ("B", [some 2, some 2])]⟩).2 "A" "B"
        = none :=
  ⟨by with_unfolding_all decide, by decide,
   c6_constant_series_fallback _ (by with_unfolding_all decide) "A" "B" (by decide)⟩

/-! Helper lemmas for the report sections. -/

theorem pairwise_of_mem_rel {α : Type _} {R : α → α → Prop} :
    ∀ (l : List α), (∀ a ∈ l, ∀ b ∈ l, R a b) → l.Pairwise R
  | [], _ => List.Pairwise.nil
  | a :: t, h => by
    constructor
    · intro b hb
      exact h a (List.mem_cons_self ..) b (List.mem_cons_of_mem _ hb)
    · exact pairwise_of_mem_rel t
        (fun x hx y hy => h x (List.mem_cons_of_mem _ hx) y (List.mem_cons_of_mem _ hy))

theorem decorate_map_snd {α : Type _} (key : α → ℚ) (l : List α) :
    (decorate key l).map (fun t => t.2) = l := by
  simp only [decorate, List.map_map, Function.comp_def]
  exact List.enum_map_snd l

theorem stableSortByKey_perm {α : Type _} (key : α → ℚ) (l : List α) :
    (stableSortByKey key l).Perm l := by
  unfold stableSortByKey
  have h1 := (List.perm_insertionSort onKey (decorate key l)).map (fun t => t.2)
  rwa [decorate_map_snd] at h1

theorem sortedRowAt_perm (f : Frame) (y : ℤ) : (sortedRowAt f y).Perm (rowAt f y) := by
  simp only [sortedRowAt]
  have hfn : (rowAt f y).filter (fun cv => cv.2.isNone)
      = (rowAt f y).filter (fun cv => !cv.2.isSome) := by
    apply List.filter_congr
    intro cv _
    cases cv.2 <;> rfl
  rw [hfn]
  exact ((stableSortByKey_perm _ _).append (List.Perm.refl _)).trans
    (List.filter_append_perm _ _)

theorem sortedRowAt_pairwise (f : Frame) (y : ℤ) :
    (sortedRowAt f y).Pairwise (fun p q => ∀ u w, p.2 = some u → q.2 = some w → u ≤ w) := by
  simp only [sortedRowAt]
  rw [List.pairwise_append]
  refine ⟨?_, ?_, ?_⟩
  · unfold stableSortByKey
    rw [List.pairwise_map]
    refine List.Pairwise.imp_of_mem ?_ (sortedDecorated_pairwise _ _)
    intro a b ha hb hab
    obtain ⟨hka, _⟩ := decorate_mem _ _ a ((List.mem_insertionSort onKey).mp ha)
    obtain ⟨hkb, _⟩ := decorate_mem _ _ b ((List.mem_insertionSort onKey).mp hb)
    have hka2 : a.1.2 = a.2.2.getD 0 := hka
    have hkb2 : b.1.2 = b.2.2.getD 0 := hkb
    intro u w hu hw
    have hlex : a.1.2 < b.1.2 ∨ (a.1.2 = b.1.2 ∧ a.1.1 ≤ b.1.1) := hab
    rw [hu, Option.getD_some] at hka2
    rw [hw, Option.getD_some] at hkb2
    rcases hlex with hlt | ⟨heq, _⟩
    · rw [hka2, hkb2] at hlt
      exact hlt.le
    · rw [hka2, hkb2] at heq
      exact heq.le
  · apply pairwise_of_mem_rel
    intro a ha b _
    have hanone : a.2 = none := by
      have := List.of_mem_filter ha
      simpa [Option.isNone_iff_eq_none] using this
    intro u w hu _
    rw [hanone] at hu
    exact absurd hu (by simp)
  · intro a _ b hb
    have hbnone : b.2 = none := by
      have := List.of_mem_filter hb
      simpa [Option.isNone_iff_eq_none] using this
    intro u w _ hw
    rw [hbnone] at hw
    exact absurd hw (by simp)

theorem crisisSection_spec (f : Frame) (y : ℤ) :
    ((crisisSection f y).isSome ↔ y ∈ f.years)
    ∧ ∀ l, crisisSection f y = some l →
        l.length = min 3 f.cols.length
        ∧ l.Pairwise (fun p q => ∀ u w, p.2 = some u → q.2 = some w → u ≤ w)
        ∧ ∀ p ∈ l, ∀ q ∈ rowAt f y, q.1 ∉ l.map (fun x => x.1) →
            ∀ u w, p.2 = some u → q.2 = some w → u ≤ w := by
  constructor
  · unfold crisisSection
    split_ifs with h <;> simp [h]
  · intro l hl
    have hly : y ∈ f.years := by
      by_contra hy
      unfold crisisSection at hl
      rw [if_neg hy] at hl
      exact absurd hl (by simp)
    unfold crisisSection at hl
    rw [if_pos hly, Option.some_inj] at hl
    subst hl
    refine ⟨?_, ?_, ?_⟩
    · rw [List.length_take]
      congr 1
      exact ((sortedRowAt_perm f y).length_eq).trans (by simp [rowAt])
    · exact List.Pairwise.sublist (List.take_sublist 3 _) (sortedRowAt_pairwise f y)
    · intro p hp q hq hqn u w hu hw
      have hq2 : q ∈ sortedRowAt f y := (sortedRowAt_perm f y).mem_iff.mpr hq
      rw [← List.take_append_drop 3 (sortedRowAt f y)] at hq2
      rcases List.mem_append.mp hq2 with hq3 | hq3
      · exact absurd (List.mem_map.mpr ⟨q, hq3, rfl⟩) hqn
      · have hpw := sortedRowAt_pairwise f y
        rw [← List.take_append_drop 3 (sortedRowAt f y)] at hpw
        exact (List.pairwise_append.mp hpw).2.2 p hp q hq3 u w hu hw

/-- C7: each of the report's two crisis-year sections (2009 and 2020) is
present exactly when that year lies in the matrix's year index — outside it
the section is skipped with no output and no error (the function is total)
— and, when present, it lists the three worst-performing countries of that
year in ascending order by value: the listed entries are sorted ascending
and each listed value is at most the value of every unlisted country. -/
theorem c7_crisis_year_sections (f : Frame) :
    ((((reportCrisisSections f).1).isSome ↔ (2009 : ℤ) ∈ f.years)
      ∧ ∀ l, (reportCrisisSections f).1 = some l →
          l.length = min 3 f.cols.length
          ∧ l.Pairwise (fun p q => ∀ u w, p.2 = some u → q.2 = some w → u ≤ w)
          ∧ ∀ p ∈ l, ∀ q ∈ rowAt f 2009, q.1 ∉ l.map (fun x => x.1) →
              ∀ u w, p.2 = some u → q.2 = some w → u ≤ w)
    ∧ ((((reportCrisisSections f).2).isSome ↔ (2020 : ℤ) ∈ f.years)
      ∧ ∀ l, (reportCrisisSections f).2 = some l →
          l.length = min 3 f.cols.length
          ∧ l.Pairwise (fun p q => ∀ u w, p.2 = some u → q.2 = some w → u ≤ w)
          ∧ ∀ p ∈ l, ∀ q ∈ rowAt f 2020, q.1 ∉ l.map (fun x => x.1) →
              ∀ u w, p.2 = some u → q.2 = some w → u ≤ w) :=
  ⟨crisisSection_spec f 2009, crisisSection_spec f 2020⟩

set_option maxRecDepth 8000 in
/-- Witness for C7 at a concrete four-country frame: the 2009 section is
present, equals the three worst performers ascending, and satisfies the
stated ordering properties. -/
theorem c7_crisis_year_sections_witness :
    (reportCrisisSections ⟨[2009, 2020], [("A", [some 3, some 1]), ("B", [some 1, some 2]),
        ("C", [some 2, some 3]), ("D", [some 0, some 0])]⟩).1
      = some [("D", some 0), ("B", some 1), ("C", some 2)]
    ∧ ([(("D" : String), some (0 : ℚ)), ("B", some 1), ("C", some 2)].length
        = min 3 (⟨[2009, 2020], [("A", [some 3, some 1]), ("B", [some 1, some 2]),
            ("C", [some 2, some 3]), ("D", [some 0, some 0])]⟩ : Frame).cols.length
      ∧ ([(("D" : String), some (0 : ℚ)), ("B", some 1), ("C", some 2)]).Pairwise
          (fun p q => ∀ u w, p.2 = some u → q.2 = some w → u ≤ w)
      ∧ ∀ p ∈ [(("D" : String), some (0 : ℚ)), ("B", some 1), ("C", some 2)],
          ∀ q ∈ rowAt ⟨[2009, 2020], [("A", [some 3, some 1]), ("B", [some 1, some 2]),
            ("C", [some 2, some 3]), ("D", [some 0, some 0])]⟩ 2009,
          q.1 ∉ ([(("D" : String), some (0 : ℚ)), ("B", some 1), ("C", some 2)]).map
            (fun x => x.1) →
          ∀ u w, p.2 = some u → q.2 = some w → u ≤ w) :=
  ⟨by with_unfolding_all decide,
   (c7_crisis_year_sections ⟨[2009, 2020], [("A", [some 3, some 1]), ("B", [some 1, some 2]),
      ("C", [some 2, some 3]), ("D", [some 0, some 0])]⟩).1.2
     [("D", some 0), ("B", some 1), ("C", some 2)] (by with_unfolding_all decide)⟩

/-- C8: the report's correlation section lists exactly the five
country-pairs with the largest absolute correlation: it is the five-element
prefix (all pairs when fewer exist) of the stable descending sort by
absolute value of the discovery-ordered pair list, it is sorted descending
by absolute value, every listed pair's absolute value is at least that of
every unlisted pair, and pairs with equal absolute values keep their
discovery order (the nested loop with the second column index strictly
after the first). Stated for any total correlation-value assignment, which
is how the report reads the matrix. -/
theorem c8_top_correlated_pairs (countries : List String) (v : String → String → ℚ) :
    (topCorrelatedPairs countries v).length = min 5 (discoveredPairs countries v).length
    ∧ ((sortedCorrPairs countries v).map (fun t => t.2)).Perm (discoveredPairs countries v)
    ∧ topCorrelatedPairs countries v
        = ((sortedCorrPairs countries v).map (fun t => t.2)).take 5
    ∧ ((sortedCorrPairs countries v).map (fun t => t.2)).Pairwise
        (fun p q => |q.2.2| ≤ |p.2.2|)
    ∧ (∀ p ∈ topCorrelatedPairs countries v,
        ∀ q ∈ ((sortedCorrPairs countries v).map (fun t => t.2)).drop 5,
          |q.2.2| ≤ |p.2.2|)
    ∧ (sortedCorrPairs countries v).Pairwise
        (fun a b => |a.2.2.2| = |b.2.2.2| → a.1.1 < b.1.1) := by
  have hperm : ((sortedCorrPairs countries v).map (fun t => t.2)).Perm
      (discoveredPairs countries v) := by
    unfold sortedCorrPairs
    have h1 := (List.perm_insertionSort onKey
      (decorate (fun p => -|p.2.2|) (discoveredPairs countries v))).map (fun t => t.2)
    rwa [decorate_map_snd] at h1
  have hpw : ((sortedCorrPairs countries v).map (fun t => t.2)).Pairwise
      (fun p q => |q.2.2| ≤ |p.2.2|) := by
    unfold sortedCorrPairs
    rw [List.pairwise_map]
    refine List.Pairwise.imp_of_mem ?_ (sortedDecorated_pairwise _ _)
    intro a b ha hb hab
    obtain ⟨hka, _⟩ := decorate_mem _ _ a ((List.mem_insertionSort onKey).mp ha)
    obtain ⟨hkb, _⟩ := decorate_mem _ _ b ((List.mem_insertionSort onKey).mp hb)
    have hka2 : a.1.2 = -|a.2.2.2| := hka
    have hkb2 : b.1.2 = -|b.2.2.2| := hkb
    have hlex : a.1.2 < b.1.2 ∨ (a.1.2 = b.1.2 ∧ a.1.1 ≤ b.1.1) := hab
    rcases hlex with hlt | ⟨heq, _⟩
    · rw [hka2, hkb2] at hlt
      linarith
    · rw [hka2, hkb2] at heq
      linarith [neg_injective heq]
  refine ⟨?_, hperm, rfl, hpw, ?_, ?_⟩
  · unfold topCorrelatedPairs
    rw [List.length_take, List.length_map]
    congr 1
    unfold sortedCorrPairs
    rw [List.length_insertionSort]
    simp [decorate]
  · intro p hp q hq
    have hp2 : p ∈ ((sortedCorrPairs countries v).map (fun t => t.2)).take 5 := hp
    have hpw2 := hpw
    rw [← List.take_append_drop 5 ((sortedCorrPairs countries v).map (fun t => t.2))]
      at hpw2
    exact (List.pairwise_append.mp hpw2).2.2 p hp2 q hq
  · refine List.Pairwise.imp_of_mem ?_ (sortedDecorated_strong _ _)
    intro a b ha hb hab habs
    obtain ⟨hka, _⟩ := decorate_mem _ _ a ((List.mem_insertionSort onKey).mp ha)
    obtain ⟨hkb, _⟩ := decorate_mem _ _ b ((List.mem_insertionSort onKey).mp hb)
    have hka2 : a.1.2 = -|a.2.2.2| := hka
    have hkb2 : b.1.2 = -|b.2.2.2| := hkb
    have hkeq : a.1.2 = b.1.2 := by rw [hka2, hkb2, habs]
    have hlex : a.1.2 < b.1.2 ∨ (a.1.2 = b.1.2 ∧ a.1.1 ≤ b.1.1) := hab.1
    have hle : a.1.1 ≤ b.1.1 := by
      rcases hlex with hlt | ⟨_, hle⟩
      · rw [hkeq] at hlt
        exact absurd hlt (lt_irrefl _)
      · exact hle
    exact lt_of_le_of_ne hle hab.2

set_option maxRecDepth 8000 in
/-- Witness for C8 at a concrete input with a tie in absolute value: the
membership hypotheses hold and the boundary inequality follows from the
theorem. -/
theorem c8_top_correlated_pairs_witness :
    topCorrelatedPairs ["A", "B", "C", "D"]
        (fun a b => if a = "A" ∧ b = "B" then -1 else if a = "A" ∧ b = "C" then 1 else 0)
      = [("A", "B", -1), ("A", "C", 1), ("A", "D", 0), ("B", "C", 0), ("B", "D", 0)]
    ∧ (("A", "B", (-1 : ℚ)) ∈ topCorrelatedPairs ["A", "B", "C", "D"]
        (fun a b => if a = "A" ∧ b = "B" then -1 else if a = "A" ∧ b = "C" then 1 else 0))
    ∧ ∀ q ∈ ((sortedCorrPairs ["A", "B", "C", "D"]
        (fun a b => if a = "A" ∧ b = "B" then -1 else if a = "A" ∧ b = "C" then 1
          else 0)).map (fun t => t.2)).drop 5,
        |q.2.2| ≤ |(("A", "B", (-1 : ℚ))).2.2| :=
  ⟨by with_unfolding_all decide, by with_unfolding_all decide,
   (c8_top_correlated_pairs ["A", "B", "C", "D"]
      (fun a b => if a = "A" ∧ b = "B" then -1 else if a = "A" ∧ b = "C" then 1 else 0)).2.2.2.2.1
     ("A", "B", -1) (by with_unfolding_all decide)⟩
